import Mathlib

/-!
Verification of the Server Actions / Cache Functions SWC transform
(`crates/next-custom-transforms/src/transforms/server_actions.rs`).

The development shallowly embeds the pure computational core of the pass:
the SHA-1 based action-id hasher, the directive-typo similarity predicate,
the directive scanners, the magic-comment catalogue construction
(`BTreeMap` collection and `serde_json` rendering), the hoisting and
proxy-building helpers over a small JavaScript AST fragment, the
capture-retention filter, and the module-item emission loop.  Theorems at
the end settle the specification claims against these embeddings.
-/

set_option autoImplicit false

namespace SA

/-! ## Bytes, hex and UTF-8 helpers -/

/-- Truncation to a 32-bit word, as all SWC hashing arithmetic is on `u32`. -/
def w32 (n : Nat) : Nat := n % 4294967296

/-- Left rotation of a 32-bit word by `n` bits (`u32::rotate_left`). -/
def rotl (x n : Nat) : Nat := w32 (x * 2 ^ n + x / 2 ^ (32 - n))

/-- Bitwise complement of a 32-bit word. -/
def not32 (x : Nat) : Nat := Nat.xor x 4294967295

/-- Lowercase hexadecimal digit for a value below 16 (`hex::encode` alphabet). -/
def hexDigit (n : Nat) : Char :=
  if n < 10 then Char.ofNat (48 + n) else Char.ofNat (87 + n)

/-- The two lowercase hex characters of one byte. -/
def hexByte (b : Nat) : List Char := [hexDigit (b / 16), hexDigit (b % 16)]

/-- Lowercase hex encoding of a byte sequence, as `hex::encode` produces. -/
def hexEncode (bs : List Nat) : String := ⟨bs.flatMap hexByte⟩

/-- UTF-8 encoding of a single Unicode scalar value. -/
def utf8Char (c : Char) : List Nat :=
  let n := c.toNat
  if n < 128 then [n]
  else if n < 2048 then [192 + n / 64, 128 + n % 64]
  else if n < 65536 then [224 + n / 4096, 128 + n / 64 % 64, 128 + n % 64]
  else [240 + n / 262144, 128 + n / 4096 % 64, 128 + n / 64 % 64, 128 + n % 64]

/-- UTF-8 bytes of a string, matching Rust `str::as_bytes`. -/
def utf8 (s : String) : List Nat := s.data.flatMap utf8Char

/-! ## SHA-1 (the `sha1` crate as used by `generate_action_id`) -/

/-- Big-endian packing of bytes into 32-bit words, four bytes per word. -/
def bytesToWords : List Nat → List Nat
  | b0 :: b1 :: b2 :: b3 :: rest =>
      (b0 * 16777216 + b1 * 65536 + b2 * 256 + b3) :: bytesToWords rest
  | _ => []

/-- Big-endian unpacking of one 32-bit word into four bytes. -/
def wordToBytes (w : Nat) : List Nat :=
  [w / 16777216 % 256, w / 65536 % 256, w / 256 % 256, w % 256]

/-- Big-endian eight-byte encoding of the 64-bit message bit length. -/
def lenBytes64 (n : Nat) : List Nat :=
  [n / 2 ^ 56 % 256, n / 2 ^ 48 % 256, n / 2 ^ 40 % 256, n / 2 ^ 32 % 256,
   n / 2 ^ 24 % 256, n / 2 ^ 16 % 256, n / 2 ^ 8 % 256, n % 256]

/-- SHA-1 padding: a 0x80 byte, zeros to 56 mod 64, then the bit length. -/
def sha1Pad (msg : List Nat) : List Nat :=
  let k := (64 + 56 - (msg.length + 1) % 64) % 64
  msg ++ [128] ++ List.replicate k 0 ++ lenBytes64 (8 * msg.length % 2 ^ 64)

/-- Split a byte list into chunks of 64 bytes. -/
def chunk64 (l : List Nat) : List (List Nat) :=
  if h : l = [] then []
  else
    have : (List.drop 64 l).length < l.length := by
      cases l with
      | nil => exact absurd rfl h
      | cons x xs => simp [List.length_drop]; omega
    l.take 64 :: chunk64 (l.drop 64)
termination_by l.length

/-- SHA-1 round function for rounds 0-19: `(b and c) or ((not b) and d)`. -/
def sf1 (b c d : Nat) : Nat := Nat.lor (Nat.land b c) (Nat.land (not32 b) d)

/-- SHA-1 round function for rounds 20-39 and 60-79: `b xor c xor d`. -/
def sf2 (b c d : Nat) : Nat := Nat.xor (Nat.xor b c) d

/-- SHA-1 round function for rounds 40-59: majority of `b`, `c`, `d`. -/
def sf3 (b c d : Nat) : Nat :=
  Nat.lor (Nat.lor (Nat.land b c) (Nat.land b d)) (Nat.land c d)

/-- Message-schedule extension: append `n` further words to the 16 block words. -/
def extendW (ws : List Nat) : Nat → List Nat
  | 0 => ws
  | n + 1 =>
      let k := ws.length
      extendW
        (ws ++ [rotl
          (Nat.xor (Nat.xor (ws.getD (k - 3) 0) (ws.getD (k - 8) 0))
            (Nat.xor (ws.getD (k - 14) 0) (ws.getD (k - 16) 0))) 1]) n

/-- The five SHA-1 working registers. -/
structure Regs where
  a : Nat
  b : Nat
  c : Nat
  d : Nat
  e : Nat
deriving Repr, DecidableEq

/-- The 80 compression rounds, indexed so the round constant can be chosen. -/
def sha1Rounds : Nat → List Nat → Regs → Regs
  | _, [], r => r
  | i, w :: ws, r =>
      let fk :=
        if i < 20 then (sf1 r.b r.c r.d, 0x5A827999)
        else if i < 40 then (sf2 r.b r.c r.d, 0x6ED9EBA1)
        else if i < 60 then (sf3 r.b r.c r.d, 0x8F1BBCDC)
        else (sf2 r.b r.c r.d, 0xCA62C1D6)
      let temp := w32 (rotl r.a 5 + fk.1 + r.e + fk.2 + w)
      sha1Rounds (i + 1) ws ⟨temp, r.a, rotl r.b 30, r.c, r.d⟩

/-- One SHA-1 block compression over a 64-byte chunk. -/
def sha1Compress (h : Regs) (block : List Nat) : Regs :=
  let ws := extendW (bytesToWords block) 64
  let r := sha1Rounds 0 ws h
  ⟨w32 (h.a + r.a), w32 (h.b + r.b), w32 (h.c + r.c), w32 (h.d + r.d),
   w32 (h.e + r.e)⟩

/-- The SHA-1 initial state. -/
def sha1Init : Regs := ⟨0x67452301, 0xEFCDAB89, 0x98BADCFE, 0x10325476, 0xC3D2E1F0⟩

/-- SHA-1 digest (20 bytes) of a byte sequence. -/
def sha1 (msg : List Nat) : List Nat :=
  let h := (chunk64 (sha1Pad msg)).foldl sha1Compress sha1Init
  wordToBytes h.a ++ wordToBytes h.b ++ wordToBytes h.c ++ wordToBytes h.d ++
    wordToBytes h.e

/-- Embeds `generate_action_id`: the SHA-1 hex digest of
`hash_salt ++ file_name ++ ":" ++ export_name` as UTF-8 bytes; the
incremental `hasher.update` calls of the source hash exactly this
concatenation (the colon is the single byte 58). -/
def generate_action_id (hash_salt file_name export_name : String) : String :=
  hexEncode (sha1 (utf8 hash_salt ++ utf8 file_name ++ [58] ++ utf8 export_name))

/-- A character is a lowercase hexadecimal digit. -/
def isLowerHex (c : Char) : Bool :=
  (48 ≤ c.toNat && c.toNat ≤ 57) || (97 ≤ c.toNat && c.toNat ≤ 102)

/-! ## Directive-typo similarity (`detect_similar_strings`) -/

/-- Equal-length scan of `detect_similar_strings`: walk both strings
accumulating the mismatch count, abort once it exceeds two, and finally
require it to be nonzero. -/
def sameLenLoop : List Char → List Char → Nat → Bool
  | x :: xs, y :: ys, diff =>
      if x ≠ y then
        if diff + 1 > 2 then false else sameLenLoop xs ys (diff + 1)
      else sameLenLoop xs ys diff
  | _, _, diff => diff != 0

/-- Off-by-one scan of `detect_similar_strings` with `a` one character
longer than `b`: at the first mismatch position `i` require
`a[i+1..] = b[i..]`; reaching the end of `b` means the extra character is
the last one of `a`. -/
def oneExtraLoop : List Char → List Char → Bool
  | _, [] => true
  | [], _ :: _ => false
  | x :: xs, y :: ys => if x ≠ y then decide (xs = y :: ys) else oneExtraLoop xs ys

/-- Embeds `detect_similar_strings`: true when the two strings differ by a
single edit (one or two substitutions at equal length, or one
insertion/deletion at off-by-one length), and false on equal strings. -/
def detect_similar_strings (a b : String) : Bool :=
  let a0 := a.data
  let b0 := b.data
  let p := if a0.length < b0.length then (b0, a0) else (a0, b0)
  if p.1.length = p.2.length then sameLenLoop p.1 p.2 0
  else if p.1.length - p.2.length > 1 then false
  else oneExtraLoop p.1 p.2

/-- Number of positions at which two equal-length character lists differ. -/
def countDiffs : List Char → List Char → Nat
  | x :: xs, y :: ys => (if x ≠ y then 1 else 0) + countDiffs xs ys
  | _, _ => 0

/-- The specified similarity relation: lengths differ by at most one; at
equal length there are one or two character mismatches; at off-by-one
length deleting some single character of the longer string yields the
shorter one. -/
def similarSpec (a b : String) : Prop :=
  let x := if a.data.length < b.data.length then b.data else a.data
  let y := if a.data.length < b.data.length then a.data else b.data
  x.length - y.length ≤ 1 ∧
    (if x.length = y.length then 1 ≤ countDiffs x y ∧ countDiffs x y ≤ 2
     else ∃ i < x.length, x.eraseIdx i = y)

/-! ## ActionsMap (`BTreeMap<String, String>`) and `serde_json` rendering -/

/-- Ordered insertion into a key-sorted association list; an equal key is
overwritten in place.  This is the `BTreeMap` insertion semantics used by
`collect::<ActionsMap>()`. -/
def btreeInsert (k v : String) : List (String × String) → List (String × String)
  | [] => [(k, v)]
  | p :: rest =>
      if k < p.1 then (k, v) :: p :: rest
      else if k = p.1 then (k, v) :: rest
      else p :: btreeInsert k v rest

/-- Collecting an iterator of pairs into a `BTreeMap`, as
`.collect::<ActionsMap>()` does: left-to-right insertion. -/
def collectActionsMap (pairs : List (String × String)) : List (String × String) :=
  pairs.foldl (fun m p => btreeInsert p.1 p.2 m) []

/-- JSON escape of one character, following `serde_json`: quote, backslash
and ASCII control characters are escaped, everything else is literal. -/
def jsonEscape (c : Char) : String :=
  if c = Char.ofNat 34 then "\\\""
  else if c = Char.ofNat 92 then "\\\\"
  else if c.toNat = 8 then "\\b"
  else if c.toNat = 9 then "\\t"
  else if c.toNat = 10 then "\\n"
  else if c.toNat = 12 then "\\f"
  else if c.toNat = 13 then "\\r"
  else if c.toNat < 32 then
    "\\u00" ++ ⟨[hexDigit (c.toNat / 16), hexDigit (c.toNat % 16)]⟩
  else String.singleton c

/-- A JSON string literal, `serde_json` style. -/
def jsonStringLit (s : String) : String :=
  "\"" ++ String.join (s.data.map jsonEscape) ++ "\""

/-- The `serde_json::to_string` rendering of a string-to-string map:
comma-separated `"key":"value"` entries between braces, in map order. -/
def serdeJsonMap (m : List (String × String)) : String :=
  "\x7b" ++ String.intercalate "," (m.map fun p => jsonStringLit p.1 ++ ":" ++ jsonStringLit p.2) ++ "\x7d"

/-- Embeds `generate_server_actions_comment`: the magic-comment text with
one leading and one trailing space around the serialized map. -/
def generate_server_actions_comment (actions : List (String × String)) : String :=
  " __next_internal_action_entry_do_not_use__ " ++ serdeJsonMap actions ++ " "

/-- The name list catalogued at module scope (`visit_mut_module_items`,
magic-comment block): every entry of `export_actions`, extended with every
exported name when the module is an action file. -/
def catalogueNames (export_actions : List String) (in_action_file : Bool)
    (exported_names : List String) : List String :=
  export_actions ++ if in_action_file then exported_names else []

/-- The `(action-id, name)` pairs fed into the `ActionsMap`. -/
def moduleActionsPairs (hash_salt file_name : String) (export_actions : List String)
    (in_action_file : Bool) (exported_names : List String) : List (String × String) :=
  (catalogueNames export_actions in_action_file exported_names).map
    fun name => (generate_action_id hash_salt file_name name, name)

/-- The final `ActionsMap` of a module pass. -/
def moduleActionsMap (hash_salt file_name : String) (export_actions : List String)
    (in_action_file : Bool) (exported_names : List String) : List (String × String) :=
  collectActionsMap
    (moduleActionsPairs hash_salt file_name export_actions in_action_file exported_names)

/-- Comment kinds of the comment-attachment interface. -/
inductive CKind where
  | line
  | block
deriving DecidableEq, Repr

/-- A leading comment attached at a byte position. -/
structure LeadComment where
  pos : Nat
  kind : CKind
  text : String
deriving DecidableEq, Repr

/-- Embeds the magic-comment emission of `visit_mut_module_items`: when
`has_action` holds, exactly one block comment is attached at the module
start position. -/
def module_leading_comments (has_action : Bool) (start_pos : Nat)
    (hash_salt file_name : String) (export_actions : List String)
    (in_action_file : Bool) (exported_names : List String) : List LeadComment :=
  if has_action then
    [⟨start_pos, CKind.block,
      generate_server_actions_comment
        (moduleActionsMap hash_salt file_name export_actions in_action_file exported_names)⟩]
  else []

/-- The hoister-visible flags of the visitor state. -/
structure PassFlags where
  has_action : Bool
  has_cache : Bool
  export_actions : List String
deriving DecidableEq, Repr

/-- Embeds the state updates shared by
`maybe_hoist_and_create_proxy_for_cache_arrow_expr` and
`maybe_hoist_and_create_proxy_for_cache_function`: set `has_cache` and
`has_action` and push the fresh cache name onto `export_actions`. -/
def cache_hoist_flags_update (st : PassFlags) (cache_name : String) : PassFlags :=
  { st with has_cache := true, has_action := true,
            export_actions := st.export_actions ++ [cache_name] }

/-! ## Module directive scanner (`remove_server_directive_index_in_module`) -/

/-- The module items the directive scanner distinguishes: an expression
statement that is a string literal, a parenthesised string literal, and
everything else. -/
inductive MItem where
  | strStmt (value : String)
  | parenStrStmt (value : String)
  | otherItem (tag : Nat)
deriving DecidableEq, Repr

/-- Diagnostic message: feature flag disabled while `"use server"` is used. -/
def enableActionsMsg : String :=
  "To use Server Actions, please enable the feature flag in your Next.js config. Read more: https://nextjs.org/docs/app/building-your-application/data-fetching/forms-and-mutations#convention"

/-- Diagnostic message for a misplaced module `"use server"` directive. -/
def topFileServerMsg : String :=
  "The \"use server\" directive must be at the top of the file."

/-- Diagnostic message for a misplaced module `"use cache"` directive. -/
def topFileCacheMsg : String :=
  "The \"use cache\" directive must be at the top of the file."

/-- Did-you-mean diagnostic for a `"use cache"` typo. -/
def didYouMeanCacheMsg (value : String) : String :=
  "Did you mean \"use cache\"? \"" ++ value ++ "\" is not a supported directive name."

/-- Did-you-mean diagnostic for a `"use server"` typo. -/
def didYouMeanServerMsg (value : String) : String :=
  "Did you mean \"use server\"? \"" ++ value ++ "\" is not a supported directive name."

/-- Diagnostic for a parenthesised `"use server"` directive. -/
def parenServerMsg : String :=
  "The \"use server\" directive cannot be wrapped in parentheses."

/-- Diagnostic for a misplaced parenthesised `"use server"` directive. -/
def topParenServerMsg : String :=
  "The \"use server\" directive must be at the top of the file, and cannot be wrapped in parentheses."

/-- Diagnostic for a parenthesised `"use cache"` directive. -/
def parenCacheMsg : String :=
  "The \"use cache\" directive cannot be wrapped in parentheses."

/-- Diagnostic for a misplaced parenthesised `"use cache"` directive. -/
def topParenCacheMsg : String :=
  "The \"use cache\" directive must be at the top of the file, and cannot be wrapped in parentheses."

/-- Rust `str::starts_with` over the character sequence (the prefixes used
here are ASCII, where byte and character prefixes coincide). -/
def strIsPref (p s : String) : Bool := p.data.isPrefixOf s.data

/-- Rust `str::split_at(n).1` for an ASCII prefix of length `n`: drop the
first `n` characters. -/
def strDropChars (s : String) (n : Nat) : String := ⟨s.data.drop n⟩

/-- State threaded through the module directive scan. -/
structure ModScan where
  is_directive : Bool
  in_action_file : Bool
  in_cache_file : Option String
  has_action : Bool
  has_cache : Bool
  diags : List String
  kept : List MItem
deriving DecidableEq, Repr

/-- One step of `remove_server_directive_index_in_module` over one module
item, mirroring the `retain` closure: recognized directives are dropped,
everything else is kept; `is_directive` is cleared only by a
non-expression-string item. -/
def scanModuleItemStep (enabled : Bool) (st : ModScan) (item : MItem) : ModScan :=
  match item with
  | .strStmt value =>
      if value = "use server" then
        if st.is_directive then
          { st with in_action_file := true, has_action := true,
                    diags := st.diags ++ if enabled then [] else [enableActionsMsg] }
        else
          { st with diags := st.diags ++ [topFileServerMsg], kept := st.kept ++ [item] }
      else if value = "use cache" ∨ strIsPref ("use cache: ") value then
        if st.is_directive then
          { st with
              in_cache_file :=
                some (if value = "use cache" then "default" else strDropChars value 11),
              has_cache := true }
        else
          { st with diags := st.diags ++ [topFileCacheMsg], kept := st.kept ++ [item] }
      else
        { st with
            diags := st.diags ++
              if detect_similar_strings value ("use cache") then [didYouMeanCacheMsg value]
              else [],
            kept := st.kept ++ [item] }
  | .parenStrStmt value =>
      if value = "use server" ∨ detect_similar_strings value ("use server") then
        { st with
            diags := st.diags ++
              [if st.is_directive then parenServerMsg else topParenServerMsg],
            kept := st.kept ++ [item] }
      else if value = "use cache" ∨ detect_similar_strings value ("use cache") then
        { st with
            diags := st.diags ++
              [if st.is_directive then parenCacheMsg else topParenCacheMsg],
            kept := st.kept ++ [item] }
      else
        { st with kept := st.kept ++ [item] }
  | .otherItem _ =>
      { st with is_directive := false, kept := st.kept ++ [item] }

/-- Embeds `remove_server_directive_index_in_module`: scan all module items
in order starting in directive position. -/
def remove_server_directive_index_in_module (enabled : Bool) (items : List MItem) : ModScan :=
  items.foldl (scanModuleItemStep enabled) ⟨true, false, none, false, false, [], []⟩

/-! ## Function-body directive scanner and classification -/

/-- The statements the function-body scanner distinguishes. -/
inductive FStmt where
  | strStmt (value : String)
  | otherStmt (tag : Nat)
deriving DecidableEq, Repr

/-- Diagnostic for a misplaced function-body `"use server"` directive. -/
def topFnServerMsg : String :=
  "The \"use server\" directive must be at the top of the function body."

/-- Diagnostic for a misplaced function-body `"use cache"` directive. -/
def topFnCacheMsg : String :=
  "The \"use cache\" directive must be at the top of the function body."

/-- State threaded through the function-body directive scan. -/
structure FnScan where
  is_directive : Bool
  is_action_fn : Bool
  cache_type : Option String
  diags : List String
  kept : List FStmt
deriving DecidableEq, Repr

/-- One step of `remove_server_directive_index_in_fn` over one body
statement. -/
def scanFnStmtStep (enabled : Bool) (st : FnScan) (stmt : FStmt) : FnScan :=
  match stmt with
  | .strStmt value =>
      if value = "use server" then
        if st.is_directive then
          { st with is_action_fn := true,
                    diags := st.diags ++ if enabled then [] else [enableActionsMsg] }
        else
          { st with diags := st.diags ++ [topFnServerMsg], kept := st.kept ++ [stmt] }
      else if detect_similar_strings value ("use server") then
        { st with diags := st.diags ++ [didYouMeanServerMsg value],
                  kept := st.kept ++ [stmt] }
      else if value = "use cache" ∨ strIsPref ("use cache: ") value then
        if st.is_directive then
          { st with
              cache_type :=
                some (if value = "use cache" then "default" else strDropChars value 11) }
        else
          { st with diags := st.diags ++ [topFnCacheMsg], kept := st.kept ++ [stmt] }
      else if detect_similar_strings value ("use cache") then
        { st with diags := st.diags ++ [didYouMeanCacheMsg value],
                  kept := st.kept ++ [stmt] }
      else
        { st with kept := st.kept ++ [stmt] }
  | .otherStmt _ =>
      { st with is_directive := false, kept := st.kept ++ [stmt] }

/-- Embeds `remove_server_directive_index_in_fn`. -/
def remove_server_directive_index_in_fn (enabled : Bool) (stmts : List FStmt) : FnScan :=
  stmts.foldl (scanFnStmtStep enabled) ⟨true, false, none, [], []⟩

/-- Diagnostic for an inline server action defined in a client component. -/
def inlineServerActionMsg : String :=
  "It is not allowed to define inline \"use server\" annotated Server Actions in Client Components.\nTo use Server Actions in a Client Component, you can either export them from a separate file with \"use server\" at the top, or pass them down through props from a Server Component.\n\nRead more: https://nextjs.org/docs/app/api-reference/functions/server-actions#with-client-components\n"

/-- Diagnostic for an inline cache function defined in a client component. -/
def inlineCacheFnMsg : String :=
  "It is not allowed to define inline \"use cache\" annotated Cache Functions in Client Components."

/-- The configuration and visitor flags that `get_body_info` consults. -/
structure BodyCtx where
  is_react_server_layer : Bool
  enabled : Bool
  in_action_file : Bool
  in_cache_file : Option String
  in_export_decl : Bool
deriving DecidableEq, Repr

/-- Embeds `get_body_info`: scan the optional body for directives, emit the
client-layer inline-definition diagnostics, then classify exported
functions of action and cache files.  Returns
`(is_action_fn, cache_type, diagnostics)`. -/
def get_body_info (ctx : BodyCtx) (maybe_body : Option (List FStmt)) :
    Bool × Option String × List String :=
  let scanned :=
    match maybe_body with
    | none => (false, none, ([] : List String))
    | some body =>
        let s := remove_server_directive_index_in_fn ctx.enabled body
        let d1 :=
          if s.is_action_fn ∧ ¬ctx.is_react_server_layer ∧ ¬ctx.in_action_file then
            [inlineServerActionMsg]
          else []
        let d2 :=
          if s.cache_type.isSome ∧ ¬ctx.is_react_server_layer ∧ ctx.in_cache_file = none then
            [inlineCacheFnMsg]
          else []
        (s.is_action_fn, s.cache_type, s.diags ++ d1 ++ d2)
  let is_action_fn :=
    if ctx.in_export_decl ∧ ctx.in_action_file then true else scanned.1
  let cache_type :=
    if ctx.in_export_decl ∧ ¬ctx.in_action_file ∧ ctx.in_cache_file.isSome then
      ctx.in_cache_file
    else scanned.2.1
  (is_action_fn, cache_type, scanned.2.2)

/-- The must-be-async diagnostic text used for actions. -/
def serverActionsAsyncMsg : String := "Server actions must be async functions"

/-- The must-be-async diagnostic text used by `visit_mut_arrow_expr`. -/
def serverActionsAsyncArrowMsg : String := "Server Actions must be async functions"

/-- The must-be-async diagnostic text used for cache functions. -/
def cacheFnAsyncMsg : String := "Cache functions must be async functions"

/-- Embeds the must-be-async diagnostic decision of `visit_mut_fn_decl`:
the cache branch emits the cache message and returns; otherwise the action
branch emits the action message. -/
def fn_decl_async_diags (is_action_fn : Bool) (cache_type : Option String)
    (is_async : Bool) : List String :=
  match cache_type with
  | some _ => if ¬is_async then [cacheFnAsyncMsg] else []
  | none => if is_action_fn ∧ ¬is_async then [serverActionsAsyncMsg] else []

/-- Embeds the must-be-async diagnostic decision of `visit_mut_fn_expr`. -/
def fn_expr_async_diags (is_action_fn : Bool) (cache_type : Option String)
    (is_async : Bool) : List String :=
  if (is_action_fn ∨ cache_type.isSome) ∧ ¬is_async then [serverActionsAsyncMsg] else []

/-- Embeds the must-be-async diagnostic decision of `visit_mut_arrow_expr`:
after the early return for unclassified arrows, the diagnostic is emitted
only when additionally the module is neither an action file nor a cache
file. -/
def arrow_async_diags (is_action_fn : Bool) (cache_type : Option String)
    (is_async in_action_file : Bool) (in_cache_file : Option String) : List String :=
  if ¬is_action_fn ∧ cache_type = none then []
  else if ¬is_async ∧ ¬in_action_file ∧ in_cache_file = none then
    [serverActionsAsyncArrowMsg]
  else []

/-! ## Module-item emission loop (`visit_mut_module_items`) -/

/-- The per-item contribution of one child visit: the (possibly rewritten)
item together with what the visit pushed onto the three pending queues. -/
structure ItemGroup (α : Type) where
  rewritten : α
  hoisted : List α
  annots : List α
  extra : List α

/-- The fold state of the emission loop: the output built so far plus the
three pending queues. -/
structure EmitSt (α : Type) where
  out : List α
  hq : List α
  aq : List α
  xq : List α

/-- One iteration of the emission loop of `visit_mut_module_items`: the
child visit extends the queues, and when compiling the server layer or a
non-action file the queues are drained around the rewritten item. -/
def emitStep {α : Type} (cond : Bool) (st : EmitSt α) (g : ItemGroup α) : EmitSt α :=
  let hq := st.hq ++ g.hoisted
  let aq := st.aq ++ g.annots
  let xq := st.xq ++ g.extra
  if cond then ⟨st.out ++ hq ++ [g.rewritten] ++ aq ++ xq, [], [], []⟩
  else ⟨st.out, hq, aq, xq⟩

/-- Embeds the per-item emission of `visit_mut_module_items`: iterate over
the item groups with empty queues, emitting under the condition
`is_react_server_layer || !in_action_file`. -/
def visit_module_items_loop {α : Type} (is_react_server_layer in_action_file : Bool)
    (gs : List (ItemGroup α)) : List α :=
  (gs.foldl (emitStep (is_react_server_layer || !in_action_file)) ⟨[], [], [], []⟩).out

/-! ## Identifiers and qualified names -/

/-- An identifier binding: textual symbol plus hygiene context
(`Ident::to_id()`).  Hygiene contexts are modelled as numeric tags; `0`
stands for the empty context used by `quote_ident!`/`IdentName`, and the
transform passes its private context as a nonzero tag. -/
structure JsId where
  sym : String
  ctxt : Nat
deriving DecidableEq, Repr

/-- One property-access part of a qualified name. -/
structure NamePart where
  prop : String
  is_member : Bool
  optional : Bool
deriving DecidableEq, Repr

/-- A qualified name: a base identifier binding plus an ordered list of
property-access parts (the `Name(Id, Vec<NamePart>)` of the source). -/
structure Name where
  base : JsId
  parts : List NamePart
deriving DecidableEq, Repr

/-- An identifier with the `quote_ident!` (empty) hygiene context. -/
def quoteIdent (s : String) : JsId := ⟨s, 0⟩

/-- The `$$ACTION_ARG_<i>` identifier created with a hygiene context. -/
def actionArgId (pctxt i : Nat) : JsId := ⟨"$$ACTION_ARG_" ++ toString i, pctxt⟩

/-! ## The modelled JavaScript AST fragment

Only the shapes the hoisting builders construct or traverse are modelled;
every other node is an opaque `other` leaf.  Object literals (and with them
the shorthand-property rewriting arm of `ClosureReplacer`) are outside the
fragment. -/

/-- Destructuring patterns (the fragment needed by the hoisters). -/
inductive Pat where
  | identPat (i : JsId)
  | arrayPat (elems : List (Option Pat))
  | otherPat (tag : Nat)

mutual

/-- Expressions of the modelled fragment. -/
inductive Expr where
  | identE (i : JsId)
  | strLit (s : String)
  | nullLit
  | member (obj : Expr) (prop : String)
  | optMember (obj : Expr) (prop : String) (optional : Bool)
  | call (callee : Expr) (args : List Expr)
  | array (elems : List Expr)
  | awaitE (e : Expr)
  | fnExprE (ident : Option JsId) (f : Func)
  | otherE (tag : Nat)

/-- A function: parameters, optional block body, and the `is_async` and
`is_generator` flags carried by `Function` in the source. -/
inductive Func where
  | mk (params : List Pat) (body : Option (List Stmt)) (is_async : Bool) (is_generator : Bool)

/-- Statements of the modelled fragment. -/
inductive Stmt where
  | varDecl (decls : List (Pat × Option Expr))
  | ret (arg : Option Expr)
  | exprStmt (e : Expr)
  | otherS (tag : Nat)

end

/-- The parameter list of a function. -/
def Func.params : Func → List Pat
  | .mk p _ _ _ => p

/-- The optional body of a function. -/
def Func.body : Func → Option (List Stmt)
  | .mk _ b _ _ => b

/-- The `is_async` flag of a function. -/
def Func.is_async : Func → Bool
  | .mk _ _ a _ => a

/-- The `is_generator` flag of a function. -/
def Func.is_generator : Func → Bool
  | .mk _ _ _ g => g

/-- Embeds `Name::try_from(&Expr)`: an identifier, a member chain with
identifier properties, or an optional-chain member chain; anything else
fails. -/
def nameTryFrom : Expr → Option Name
  | .identE i => some ⟨i, []⟩
  | .member obj prop =>
      (nameTryFrom obj).map fun n => ⟨n.base, n.parts ++ [⟨prop, true, false⟩]⟩
  | .optMember obj prop opt =>
      (nameTryFrom obj).map fun n => ⟨n.base, n.parts ++ [⟨prop, false, opt⟩]⟩
  | _ => none

/-- Embeds `From<Name> for Box<Expr>`: rebuild the qualified-name
expression from the base identifier and the parts. -/
def nameToExpr (n : Name) : Expr :=
  n.parts.foldl
    (fun e p => if p.is_member then .member e p.prop else .optMember e p.prop p.optional)
    (.identE n.base)

/-! ## `ClosureReplacer` -/

/-- Embeds `ClosureReplacer::index`: the position of the canonicalised
expression among the captured names. -/
def crIndex (used : List Name) (e : Expr) : Option Nat :=
  match nameTryFrom e with
  | some n => used.findIdx? (fun u => u == n)
  | none => none

/-- The post-visit replacement step of `ClosureReplacer::visit_mut_expr`:
an expression matching captured name `i` becomes `$$ACTION_ARG_<i>` with
the replacer's private context. -/
def crPost (used : List Name) (pctxt : Nat) (e : Expr) : Expr :=
  match crIndex used e with
  | some idx => .identE (actionArgId pctxt idx)
  | none => e

mutual

/-- `ClosureReplacer` over an expression (children first, then the
replacement check, as `visit_mut_expr` does). -/
def replaceExpr (used : List Name) (pctxt : Nat) : Expr → Expr
  | .identE i => crPost used pctxt (.identE i)
  | .strLit s => crPost used pctxt (.strLit s)
  | .nullLit => crPost used pctxt .nullLit
  | .member obj prop => crPost used pctxt (.member (replaceExpr used pctxt obj) prop)
  | .optMember obj prop opt =>
      crPost used pctxt (.optMember (replaceExpr used pctxt obj) prop opt)
  | .call c args =>
      crPost used pctxt (.call (replaceExpr used pctxt c) (replaceExprs used pctxt args))
  | .array es => crPost used pctxt (.array (replaceExprs used pctxt es))
  | .awaitE e => crPost used pctxt (.awaitE (replaceExpr used pctxt e))
  | .fnExprE i f => crPost used pctxt (.fnExprE i (replaceFunc used pctxt f))
  | .otherE t => crPost used pctxt (.otherE t)

/-- `ClosureReplacer` over an expression list. -/
def replaceExprs (used : List Name) (pctxt : Nat) : List Expr → List Expr
  | [] => []
  | e :: es => replaceExpr used pctxt e :: replaceExprs used pctxt es

/-- `ClosureReplacer` over an optional expression. -/
def replaceOptExpr (used : List Name) (pctxt : Nat) : Option Expr → Option Expr
  | none => none
  | some e => some (replaceExpr used pctxt e)

/-- `ClosureReplacer` over a function. -/
def replaceFunc (used : List Name) (pctxt : Nat) : Func → Func
  | .mk params body a g => .mk params (replaceOptStmts used pctxt body) a g

/-- `ClosureReplacer` over an optional block body. -/
def replaceOptStmts (used : List Name) (pctxt : Nat) : Option (List Stmt) → Option (List Stmt)
  | none => none
  | some ss => some (replaceStmts used pctxt ss)

/-- `ClosureReplacer` over a statement list. -/
def replaceStmts (used : List Name) (pctxt : Nat) : List Stmt → List Stmt
  | [] => []
  | s :: ss => replaceStmt used pctxt s :: replaceStmts used pctxt ss

/-- `ClosureReplacer` over a statement. -/
def replaceStmt (used : List Name) (pctxt : Nat) : Stmt → Stmt
  | .varDecl decls => .varDecl (replaceDecls used pctxt decls)
  | .ret arg => .ret (replaceOptExpr used pctxt arg)
  | .exprStmt e => .exprStmt (replaceExpr used pctxt e)
  | .otherS t => .otherS t

/-- `ClosureReplacer` over variable declarators. -/
def replaceDecls (used : List Name) (pctxt : Nat) :
    List (Pat × Option Expr) → List (Pat × Option Expr)
  | [] => []
  | d :: rest => (d.1, replaceOptExpr used pctxt d.2) :: replaceDecls used pctxt rest

end

/-! ## Hoisting and proxy construction -/

/-- Embeds `annotate_ident_as_server_reference`:
`registerServerReference(ident, id, null)`, and when bound arguments exist
the `.bind(null, encryptActionBoundArgs(id, [..bound]))` wrapper. -/
def annotate_ident_as_server_reference (i : JsId) (bound : List Expr)
    (action_id : String) : Expr :=
  let proxy_expr : Expr :=
    .call (.identE (quoteIdent ("registerServerReference")))
      [.identE i, .strLit action_id, .nullLit]
  if bound.isEmpty then proxy_expr
  else
    .call (.member proxy_expr ("bind"))
      [.nullLit,
       .call (.identE (quoteIdent ("encryptActionBoundArgs")))
         [.strLit action_id, .array bound]]

/-- The `$$ACTION_CLOSURE_BOUND` parameter pattern. -/
def closureBoundPat : Pat := .identPat (quoteIdent ("$$ACTION_CLOSURE_BOUND"))

/-- The decryption declaration prepended to hoisted bodies:
`var [..arg_pats] = await decryptActionBoundArgs(action_id, $$ACTION_CLOSURE_BOUND);`. -/
def decryptionDecl (arg_pats : List Pat) (action_id : String) : Stmt :=
  .varDecl [(.arrayPat (arg_pats.map some),
    some (.awaitE (.call (.identE (quoteIdent ("decryptActionBoundArgs")))
      [.strLit action_id, .identE (quoteIdent ("$$ACTION_CLOSURE_BOUND"))])))]

/-- The `$$ACTION_ARG_<i>` patterns for a capture vector, with the given
hygiene context (`Ident::new` with the private context in the action
variants, `IdentName::new` with the empty context in the cache variants). -/
def actionArgPats (pctxt : Nat) (count : Nat) : List Pat :=
  (List.range count).map fun i => Pat.identPat (actionArgId pctxt i)

/-- An arrow expression (`ArrowExpr`) of the modelled fragment. -/
inductive BlockOrExpr where
  | blockB (stmts : List Stmt)
  | exprB (e : Expr)

/-- An arrow expression: parameter patterns, body, and asyncness. -/
structure Arrow where
  params : List Pat
  body : BlockOrExpr
  is_async : Bool

/-- An exported hoisted function declaration (`export async function <ident> ...`). -/
structure FnDeclItem where
  ident : JsId
  func : Func

/-- The result of an action hoist: the bumped reference counter, the name
pushed onto `export_actions`, the hoisted item for `extra_items`, and the
replacement proxy expression. -/
structure HoistOut where
  reference_index : Nat
  export_action : String
  extra_item : FnDeclItem
  proxy : Expr

/-- Embeds `maybe_hoist_and_create_proxy_for_server_action_arrow_expr`. -/
def maybe_hoist_and_create_proxy_for_server_action_arrow_expr
    (hash_salt file_name : String) (pctxt reference_index : Nat)
    (ids_from_closure : List Name) (arrow : Arrow) : HoistOut :=
  let action_name := "$$RSC_SERVER_ACTION_" ++ toString reference_index
  let action_ident : JsId := ⟨action_name, pctxt⟩
  let action_id := generate_action_id hash_salt file_name action_name
  let register_action_expr :=
    annotate_ident_as_server_reference action_ident
      (ids_from_closure.map nameToExpr) action_id
  let body1 : BlockOrExpr :=
    match arrow.body with
    | .blockB stmts => .blockB (replaceStmts ids_from_closure pctxt stmts)
    | .exprB e => .exprB e
  let new_params : List Pat :=
    (if ids_from_closure.isEmpty then [] else [closureBoundPat]) ++ arrow.params
  let new_body : BlockOrExpr :=
    if ids_from_closure.isEmpty then body1
    else
      match body1 with
      | .blockB stmts =>
          .blockB (decryptionDecl (actionArgPats pctxt ids_from_closure.length) action_id
            :: stmts)
      | .exprB e =>
          .blockB [decryptionDecl (actionArgPats pctxt ids_from_closure.length) action_id,
            .ret (some e)]
  let fn_body : List Stmt :=
    match new_body with
    | .blockB stmts => stmts
    | .exprB e => [.ret (some e)]
  { reference_index := reference_index + 1
    export_action := action_name
    extra_item := ⟨action_ident, .mk new_params (some fn_body) true false⟩
    proxy := register_action_expr }

/-- Embeds `maybe_hoist_and_create_proxy_for_server_action_function`.  Note
that the hoisted `Function` is built with `..*function.take()`, so it
keeps the original `is_async` and `is_generator` flags. -/
def maybe_hoist_and_create_proxy_for_server_action_function
    (hash_salt file_name : String) (pctxt reference_index : Nat)
    (ids_from_closure : List Name) (function : Func) : HoistOut :=
  let action_name := "$$RSC_SERVER_ACTION_" ++ toString reference_index
  let action_ident : JsId := ⟨action_name, pctxt⟩
  let action_id := generate_action_id hash_salt file_name action_name
  let register_action_expr :=
    annotate_ident_as_server_reference action_ident
      (ids_from_closure.map nameToExpr) action_id
  let body1 : Option (List Stmt) := replaceOptStmts ids_from_closure pctxt function.body
  let new_params : List Pat :=
    (if ids_from_closure.isEmpty then [] else [closureBoundPat]) ++ function.params
  let new_body : Option (List Stmt) :=
    if ids_from_closure.isEmpty then body1
    else
      some (decryptionDecl (actionArgPats pctxt ids_from_closure.length) action_id
        :: body1.getD [])
  { reference_index := reference_index + 1
    export_action := action_name
    extra_item :=
      ⟨action_ident, .mk new_params new_body function.is_async function.is_generator⟩
    proxy := register_action_expr }

/-- A hoisted `export var <name> = <init>;` item. -/
structure VarDeclItem where
  name : JsId
  init : Expr

/-- The result of a cache hoist. -/
structure CacheHoistOut where
  reference_index : Nat
  export_action : String
  hoisted_item : VarDeclItem
  proxy : Expr

/-- Embeds `wrap_cache_expr`: `$$cache__("name", "id", expr)`. -/
def wrap_cache_expr (expr : Expr) (name id : String) : Expr :=
  .call (.identE (quoteIdent ("$$cache__"))) [.strLit name, .strLit id, expr]

/-- Embeds `maybe_hoist_and_create_proxy_for_cache_function`.  The wrapped
function expression is built with `..*function.take()`, so it keeps the
original `is_async` and `is_generator` flags; the `$$ACTION_ARG_<i>`
patterns use `IdentName::new` (empty hygiene context) in this variant. -/
def maybe_hoist_and_create_proxy_for_cache_function
    (hash_salt file_name : String) (pctxt reference_index : Nat)
    (ids_from_closure : List Name) (fn_name : Option JsId) (cache_type : String)
    (function : Func) : CacheHoistOut :=
  let cache_name := "$$RSC_SERVER_CACHE_" ++ toString reference_index
  let cache_ident : JsId := ⟨cache_name, pctxt⟩
  let reference_id := generate_action_id hash_salt file_name cache_name
  let register_action_expr :=
    annotate_ident_as_server_reference cache_ident
      (ids_from_closure.map nameToExpr) reference_id
  let body1 : Option (List Stmt) := replaceOptStmts ids_from_closure pctxt function.body
  let new_params : List Pat :=
    (if ids_from_closure.isEmpty then [] else [closureBoundPat]) ++ function.params
  let new_body : Option (List Stmt) :=
    if ids_from_closure.isEmpty then body1
    else
      some (decryptionDecl (actionArgPats 0 ids_from_closure.length) reference_id
        :: body1.getD [])
  { reference_index := reference_index + 1
    export_action := cache_name
    hoisted_item :=
      ⟨cache_ident,
       wrap_cache_expr
         (.fnExprE fn_name (.mk new_params new_body function.is_async function.is_generator))
         cache_type reference_id⟩
    proxy := register_action_expr }

/-- The result of the cache branch of `visit_mut_fn_decl`. -/
structure FnDeclCacheOut where
  reference_index : Nat
  export_action : String
  hoisted_item : VarDeclItem
  rewrite_fn_decl_to_proxy_decl : VarDeclItem
  diags : List String

/-- Embeds the cache branch of `visit_mut_fn_decl`: the must-be-async
diagnostic, a hoist invoked with an empty capture vector (`[].to_vec()`)
regardless of the collected `child_names`, and the replacement
`var <origName> = <proxy>;` declaration. -/
def visit_fn_decl_cache_branch (hash_salt file_name : String)
    (pctxt reference_index : Nat) (child_names : List Name) (ident : JsId)
    (cache_type : String) (function : Func) : FnDeclCacheOut :=
  let _ := child_names
  let diags := if ¬function.is_async then [cacheFnAsyncMsg] else []
  let h :=
    maybe_hoist_and_create_proxy_for_cache_function hash_salt file_name pctxt
      reference_index [] (some ident) cache_type function
  { reference_index := h.reference_index
    export_action := h.export_action
    hoisted_item := h.hoisted_item
    rewrite_fn_decl_to_proxy_decl := ⟨ident, h.proxy⟩
    diags := diags }

/-! ## Capture retention (`retain_names_from_declared_idents`) -/

/-- Pointwise equality of the shorter part list against the front of the
longer one; under the length guard of the source this is exactly its
index loop. -/
def partsPrefOf : List NamePart → List NamePart → Bool
  | [], _ => true
  | _ :: _, [] => false
  | x :: xs, y :: ys => x == y && partsPrefOf xs ys

/-- The strict-extension test of the retention loop: some other candidate
has the same base and is a shorter-or-equal pointwise prefix of `name`
while being different from it. -/
def hasCoveringName (child_names : List Name) (name : Name) : Bool :=
  child_names.any fun another =>
    decide (name ≠ another) && (name.base == another.base) &&
      decide (another.parts.length ≤ name.parts.length) &&
      partsPrefOf another.parts name.parts

/-- The loop body of `retain_names_from_declared_idents`: push the current
candidate when it is not covered by another candidate, its base identifier
appears among the declared identifiers, and it was not already retained. -/
def retainStep (child_names : List Name) (current_declared_idents : List JsId)
    (retained : List Name) (name : Name) : List Name :=
  if !hasCoveringName child_names name &&
      current_declared_idents.any (fun i => i == name.base) &&
      !retained.contains name then
    retained ++ [name]
  else retained

/-- Embeds `retain_names_from_declared_idents`: keep each candidate that is
not covered by another (shorter-or-equal prefix) candidate, whose base
identifier appears among the declared identifiers, with deduplication. -/
def retain_names_from_declared_idents (child_names : List Name)
    (current_declared_idents : List JsId) : List Name :=
  child_names.foldl (retainStep child_names current_declared_idents) []

/-! ## Concrete inputs used by witnesses and counterexamples -/

/-- A one-element capture vector for witnesses. -/
def capW : List Name := [⟨⟨"x", 0⟩, []⟩]

/-- A concrete arrow expression for witnesses. -/
def arrowW : Arrow := ⟨[], .blockB [], false⟩

/-- A concrete async function for witnesses. -/
def funcW : Func := .mk [] (some []) true false

/-- A concrete non-async function, used to exercise the function hoist. -/
def funcNA : Func := .mk [] (some []) false false

/-- Capture candidates `a.b` and `a.b.c` for the retention witness. -/
def cnW : List Name :=
  [⟨⟨"a", 0⟩, [⟨"b", true, false⟩]⟩,
   ⟨⟨"a", 0⟩, [⟨"b", true, false⟩, ⟨"c", true, false⟩]⟩]

/-- Declared identifiers for the retention witness. -/
def dW : List JsId := [⟨"a", 0⟩]

/-- Module-scope bindings for the retention witness. -/
def modW : List JsId := [⟨"m", 0⟩]

/-- Hoisted-function parameters for the retention witness. -/
def parW : List JsId := [⟨"p", 0⟩]

/-! # Theorems -/

/-! ## SHA-1 digest shape -/

theorem mem_wordToBytes_lt (w : Nat) : ∀ b ∈ wordToBytes w, b < 256 := by
  simp only [wordToBytes, List.mem_cons, List.not_mem_nil, or_false, forall_eq_or_imp,
    forall_eq]
  omega

theorem sha1_length (m : List Nat) : (sha1 m).length = 20 := by
  simp [sha1, wordToBytes]

theorem sha1_bytes_lt (m : List Nat) : ∀ b ∈ sha1 m, b < 256 := by
  intro b hb
  simp only [sha1, List.mem_append] at hb
  rcases hb with ((((h | h) | h) | h) | h) <;> exact mem_wordToBytes_lt _ _ h

theorem hexDigit_lower : ∀ n < 16, isLowerHex (hexDigit n) = true := by decide

theorem flatMap_hexByte_length (bs : List Nat) :
    (bs.flatMap hexByte).length = 2 * bs.length := by
  induction bs with
  | nil => simp
  | cons b bs ih => simp [hexByte, ih]; omega

theorem hexEncode_length (bs : List Nat) : (hexEncode bs).length = 2 * bs.length := by
  have : (hexEncode bs).length = (bs.flatMap hexByte).length := rfl
  rw [this, flatMap_hexByte_length]

theorem hexEncode_lowerHex (bs : List Nat) (h : ∀ b ∈ bs, b < 256) :
    ∀ c ∈ (hexEncode bs).data, isLowerHex c = true := by
  intro c hc
  have hc2 : c ∈ bs.flatMap hexByte := hc
  rcases List.mem_flatMap.mp hc2 with ⟨b, hb, hcb⟩
  have hblt := h b hb
  simp only [hexByte, List.mem_cons, List.not_mem_nil, or_false] at hcb
  rcases hcb with rfl | rfl
  · exact hexDigit_lower _ (by omega)
  · exact hexDigit_lower _ (by omega)

/-- C1: for every hash salt, filename and export name, the action id equals
the lowercase hexadecimal SHA-1 digest of the UTF-8 concatenation
`hashSalt ++ filename ++ ":" ++ exportName`, is 40 characters long with
every character a lowercase hex digit, and — being a function of exactly
these three arguments — depends on no other input. -/
theorem c1_generate_action_id (hash_salt file_name export_name : String) :
    generate_action_id hash_salt file_name export_name =
      hexEncode (sha1 (utf8 hash_salt ++ utf8 file_name ++ [58] ++ utf8 export_name)) ∧
    (generate_action_id hash_salt file_name export_name).length = 40 ∧
    ∀ c ∈ (generate_action_id hash_salt file_name export_name).data,
      isLowerHex c = true := by
  refine ⟨rfl, ?_, ?_⟩
  · have h1 : generate_action_id hash_salt file_name export_name =
        hexEncode (sha1 (utf8 hash_salt ++ utf8 file_name ++ [58] ++ utf8 export_name)) :=
      rfl
    rw [h1, hexEncode_length, sha1_length]
  · exact hexEncode_lowerHex _ (sha1_bytes_lt _)

/-! ## Similarity predicate -/

theorem countDiffs_self (l : List Char) : countDiffs l l = 0 := by
  induction l with
  | nil => rfl
  | cons x xs ih => simp [countDiffs, ih]

theorem sameLenLoop_eq (a : List Char) : ∀ (b : List Char) (d : Nat),
    a.length = b.length → d ≤ 2 →
    (sameLenLoop a b d = true ↔ d + countDiffs a b ≠ 0 ∧ d + countDiffs a b ≤ 2) := by
  induction a with
  | nil =>
    intro b d hlen hd
    cases b with
    | nil =>
      simp only [sameLenLoop, countDiffs, Nat.add_zero, bne_iff_ne, ne_eq]
      omega
    | cons y ys => simp at hlen
  | cons x xs ih =>
    intro b d hlen hd
    cases b with
    | nil => simp at hlen
    | cons y ys =>
      simp only [List.length_cons, Nat.add_right_cancel_iff] at hlen
      by_cases hxy : x = y
      · subst hxy
        rw [show sameLenLoop (x :: xs) (x :: ys) d = sameLenLoop xs ys d from by
          simp [sameLenLoop]]
        rw [show countDiffs (x :: xs) (x :: ys) = countDiffs xs ys from by
          simp [countDiffs]]
        exact ih ys d hlen hd
      · rw [show sameLenLoop (x :: xs) (y :: ys) d =
            (if d + 1 > 2 then false else sameLenLoop xs ys (d + 1)) from by
          simp [sameLenLoop, hxy]]
        rw [show countDiffs (x :: xs) (y :: ys) = 1 + countDiffs xs ys from by
          simp [countDiffs, hxy]]
        by_cases hd2 : d + 1 > 2
        · rw [if_pos hd2]
          simp only [Bool.false_eq_true, false_iff, not_and]
          omega
        · rw [if_neg hd2]
          rw [ih ys (d + 1) hlen (by omega)]
          omega

theorem oneExtraLoop_eq (b : List Char) : ∀ a : List Char,
    a.length = b.length + 1 →
    (oneExtraLoop a b = true ↔ ∃ i < a.length, a.eraseIdx i = b) := by
  induction b with
  | nil =>
    intro a hlen
    match a, hlen with
    | [x], _ =>
      simp only [oneExtraLoop, true_iff]
      exact ⟨0, by omega, rfl⟩
  | cons y ys ih =>
    intro a hlen
    match a with
    | x :: xs =>
      simp only [List.length_cons, Nat.add_right_cancel_iff] at hlen
      by_cases hxy : x = y
      · subst hxy
        rw [show oneExtraLoop (x :: xs) (x :: ys) = oneExtraLoop xs ys from by
          simp [oneExtraLoop]]
        rw [ih xs hlen]
        constructor
        · rintro ⟨j, hj, hje⟩
          exact ⟨j + 1, by simpa using by omega, by simp [List.eraseIdx_cons_succ, hje]⟩
        · rintro ⟨i, hi, hie⟩
          cases i with
          | zero =>
            simp only [List.eraseIdx_cons_zero] at hie
            refine ⟨0, ?_, ?_⟩
            · rw [hie]; simp
            · rw [hie]; simp
          | succ j =>
            simp only [List.eraseIdx_cons_succ, List.cons.injEq, true_and] at hie
            exact ⟨j, by simp at hi; omega, hie⟩
      · rw [show oneExtraLoop (x :: xs) (y :: ys) = decide (xs = y :: ys) from by
          simp [oneExtraLoop, hxy]]
        rw [decide_eq_true_eq]
        constructor
        · intro h
          exact ⟨0, by simp, by simp [h]⟩
        · rintro ⟨i, hi, hie⟩
          cases i with
          | zero => simpa using hie
          | succ j =>
            simp only [List.eraseIdx_cons_succ, List.cons.injEq] at hie
            exact absurd hie.1 hxy

theorem detectCore (x y : List Char) (hle : y.length ≤ x.length) :
    ((if x.length = y.length then sameLenLoop x y 0
      else if x.length - y.length > 1 then false
      else oneExtraLoop x y) = true) ↔
    (x.length - y.length ≤ 1 ∧
      (if x.length = y.length then 1 ≤ countDiffs x y ∧ countDiffs x y ≤ 2
       else ∃ i < x.length, x.eraseIdx i = y)) := by
  by_cases heq : x.length = y.length
  · simp only [if_pos heq]
    rw [sameLenLoop_eq x y 0 heq (by omega)]
    omega
  · simp only [if_neg heq]
    by_cases hgt : x.length - y.length > 1
    · simp only [if_pos hgt, Bool.false_eq_true, false_iff, not_and]
      intro h
      omega
    · have hx : x.length = y.length + 1 := by omega
      simp only [if_neg hgt]
      rw [oneExtraLoop_eq y x hx]
      constructor
      · intro h
        exact ⟨by omega, h⟩
      · intro h
        exact h.2

/-- C5: the similarity predicate holds exactly when the lengths differ by
at most one and, at equal length, there are one or two character
mismatches, while at off-by-one length deleting a single character of the
longer string yields the shorter; in particular it is false on equal
strings. -/
theorem c5_detect_similar_strings :
    (∀ a b : String, detect_similar_strings a b = true ↔ similarSpec a b) ∧
    ∀ a : String, detect_similar_strings a a = false := by
  have main : ∀ a b : String, detect_similar_strings a b = true ↔ similarSpec a b := by
    intro a b
    by_cases hlt : a.data.length < b.data.length
    · have hlt2 : (a.data.length < b.data.length) = True := eq_true hlt
      have h1 : detect_similar_strings a b =
          (if b.data.length = a.data.length then sameLenLoop b.data a.data 0
           else if b.data.length - a.data.length > 1 then false
           else oneExtraLoop b.data a.data) := by
        simp only [detect_similar_strings, hlt2, if_true]
      have h2 : similarSpec a b =
          (b.data.length - a.data.length ≤ 1 ∧
            (if b.data.length = a.data.length then
              1 ≤ countDiffs b.data a.data ∧ countDiffs b.data a.data ≤ 2
             else ∃ i < b.data.length, b.data.eraseIdx i = a.data)) := by
        simp only [similarSpec, hlt2, if_true]
      rw [h1, h2]
      exact detectCore _ _ (by omega)
    · have hlt2 : (a.data.length < b.data.length) = False := eq_false hlt
      have h1 : detect_similar_strings a b =
          (if a.data.length = b.data.length then sameLenLoop a.data b.data 0
           else if a.data.length - b.data.length > 1 then false
           else oneExtraLoop a.data b.data) := by
        simp only [detect_similar_strings, hlt2, if_false]
      have h2 : similarSpec a b =
          (a.data.length - b.data.length ≤ 1 ∧
            (if a.data.length = b.data.length then
              1 ≤ countDiffs a.data b.data ∧ countDiffs a.data b.data ≤ 2
             else ∃ i < a.data.length, a.data.eraseIdx i = b.data)) := by
        simp only [similarSpec, hlt2, if_false]
      rw [h1, h2]
      exact detectCore _ _ (by omega)
  refine ⟨main, fun a => ?_⟩
  rw [Bool.eq_false_iff]
  intro hc
  have h1 : detect_similar_strings a a =
      (if a.data.length = a.data.length then sameLenLoop a.data a.data 0
       else if a.data.length - a.data.length > 1 then false
       else oneExtraLoop a.data a.data) := by
    have hlt2 : (a.data.length < a.data.length) = False := eq_false (by omega)
    simp only [detect_similar_strings, hlt2, if_false]
  rw [h1, if_pos rfl, sameLenLoop_eq a.data a.data 0 rfl (by omega),
    countDiffs_self] at hc
  omega

/-! ## BTreeMap collection and the module catalogue -/

theorem btreeInsert_subset (k v : String) (m : List (String × String)) :
    ∀ p ∈ btreeInsert k v m, p = (k, v) ∨ p ∈ m := by
  induction m with
  | nil => simp [btreeInsert]
  | cons q rest ih =>
    intro p hp
    simp only [btreeInsert] at hp
    split at hp
    · simp only [List.mem_cons] at hp ⊢
      tauto
    · split at hp
      · simp only [List.mem_cons] at hp ⊢
        tauto
      · simp only [List.mem_cons] at hp
        rcases hp with rfl | hp
        · exact Or.inr (List.mem_cons_self _ _)
        · rcases ih p hp with h2 | h2
          · exact Or.inl h2
          · exact Or.inr (List.mem_cons_of_mem _ h2)

theorem mem_keys_btreeInsert (k v s : String) (m : List (String × String)) :
    s ∈ (btreeInsert k v m).map Prod.fst ↔ s = k ∨ s ∈ m.map Prod.fst := by
  induction m with
  | nil => simp [btreeInsert]
  | cons q rest ih =>
    simp only [btreeInsert]
    split
    · simp
    · next hlt =>
      split
      · next heq =>
          subst heq
          simp only [List.map_cons, List.mem_cons]
          tauto
      · simp only [List.map_cons, List.mem_cons, ih]
        tauto

theorem pairwise_keys_btreeInsert (k v : String) (m : List (String × String))
    (h : List.Pairwise (· < ·) (m.map Prod.fst)) :
    List.Pairwise (· < ·) ((btreeInsert k v m).map Prod.fst) := by
  induction m with
  | nil => simp [btreeInsert]
  | cons q rest ih =>
    simp only [List.map_cons, List.pairwise_cons] at h
    obtain ⟨h1, h2⟩ := h
    simp only [btreeInsert]
    split
    · next hlt =>
      simp only [List.map_cons, List.pairwise_cons]
      refine ⟨?_, h1, h2⟩
      intro s hs
      simp only [List.mem_cons] at hs
      rcases hs with rfl | hs
      · exact hlt
      · exact lt_trans hlt (h1 s hs)
    · next hlt =>
      split
      · next heq =>
        subst heq
        simp only [List.map_cons, List.pairwise_cons]
        exact ⟨h1, h2⟩
      · next hne =>
        have hqk : q.1 < k := by
          rcases lt_trichotomy k q.1 with h3 | h3 | h3
          · exact absurd h3 hlt
          · exact absurd h3 hne
          · exact h3
        simp only [List.map_cons, List.pairwise_cons]
        refine ⟨?_, ih h2⟩
        intro s hs
        rw [mem_keys_btreeInsert] at hs
        rcases hs with rfl | hs
        · exact hqk
        · exact h1 s hs

theorem foldl_btreeInsert_subset (ps : List (String × String)) :
    ∀ (m : List (String × String)) p,
      p ∈ ps.foldl (fun acc q => btreeInsert q.1 q.2 acc) m → p ∈ m ∨ p ∈ ps := by
  induction ps with
  | nil => simp
  | cons q ps ih =>
    intro m p hp
    rw [List.foldl_cons] at hp
    rcases ih _ p hp with h | h
    · rcases btreeInsert_subset q.1 q.2 m p h with h2 | h2
      · exact Or.inr (by rw [h2]; exact List.mem_cons_self _ _)
      · exact Or.inl h2
    · exact Or.inr (List.mem_cons_of_mem _ h)

theorem mem_keys_foldl_btreeInsert (ps : List (String × String)) :
    ∀ (m : List (String × String)) (s : String),
      s ∈ (ps.foldl (fun acc q => btreeInsert q.1 q.2 acc) m).map Prod.fst ↔
        s ∈ m.map Prod.fst ∨ s ∈ ps.map Prod.fst := by
  induction ps with
  | nil => simp
  | cons q ps ih =>
    intro m s
    simp only [List.foldl_cons, ih, mem_keys_btreeInsert, List.map_cons, List.mem_cons]
    tauto

theorem pairwise_keys_foldl_btreeInsert (ps : List (String × String)) :
    ∀ m : List (String × String), List.Pairwise (· < ·) (m.map Prod.fst) →
      List.Pairwise (· < ·)
        ((ps.foldl (fun acc q => btreeInsert q.1 q.2 acc) m).map Prod.fst) := by
  induction ps with
  | nil => intro m h; simpa using h
  | cons q ps ih =>
    intro m h
    exact ih _ (pairwise_keys_btreeInsert q.1 q.2 m h)

/-- C2: when `hasAction` holds after a module pass, exactly one block
comment is attached at the module start position, with text
` __next_internal_action_entry_do_not_use__ <json> ` where `<json>` maps
action ids to names; the key set is exactly the ids of `exportActions`
united, for action files, with the ids of the exported names; keys sit in
strictly increasing (lexicographic) order; and every entry maps the id of
its name. -/
theorem c2_module_comment (start_pos : Nat) (hash_salt file_name : String)
    (export_actions exported_names : List String) (in_action_file : Bool) :
    module_leading_comments true start_pos hash_salt file_name export_actions
        in_action_file exported_names =
      [⟨start_pos, CKind.block,
        " __next_internal_action_entry_do_not_use__ " ++
          serdeJsonMap (moduleActionsMap hash_salt file_name export_actions
            in_action_file exported_names) ++ " "⟩] ∧
    List.Pairwise (· < ·)
      ((moduleActionsMap hash_salt file_name export_actions in_action_file
        exported_names).map Prod.fst) ∧
    (∀ s, s ∈ (moduleActionsMap hash_salt file_name export_actions in_action_file
        exported_names).map Prod.fst ↔
      ∃ n ∈ catalogueNames export_actions in_action_file exported_names,
        s = generate_action_id hash_salt file_name n) ∧
    ∀ p ∈ moduleActionsMap hash_salt file_name export_actions in_action_file
        exported_names,
      p.1 = generate_action_id hash_salt file_name p.2 ∧
        p.2 ∈ catalogueNames export_actions in_action_file exported_names := by
  refine ⟨rfl, ?_, ?_, ?_⟩
  · exact pairwise_keys_foldl_btreeInsert _ _ (by simp)
  · intro s
    rw [show moduleActionsMap hash_salt file_name export_actions in_action_file
        exported_names =
      (moduleActionsPairs hash_salt file_name export_actions in_action_file
        exported_names).foldl (fun acc q => btreeInsert q.1 q.2 acc) [] from rfl]
    rw [mem_keys_foldl_btreeInsert]
    simp only [List.map_nil, List.not_mem_nil, false_or, moduleActionsPairs,
      List.map_map, List.mem_map, Function.comp]
    constructor
    · rintro ⟨n, hn, rfl⟩
      exact ⟨n, hn, rfl⟩
    · rintro ⟨n, hn, rfl⟩
      exact ⟨n, hn, rfl⟩
  · intro p hp
    have h := foldl_btreeInsert_subset _ [] p hp
    simp only [List.not_mem_nil, false_or] at h
    simp only [moduleActionsPairs, List.mem_map] at h
    rcases h with ⟨n, hn, rfl⟩
    exact ⟨rfl, hn⟩

/-- C9: every cache hoist sets `hasAction` (and `hasCache`) and appends the
fresh cache name to `exportActions`; consequently a module with cache
functions but no `"use server"` directive still receives the single
leading catalogue comment, and its key set contains the cache function's
action id. -/
theorem c9_cache_hoist_catalogue (st : PassFlags) (cache_name : String)
    (start_pos : Nat) (hash_salt file_name : String) (exported_names : List String) :
    (cache_hoist_flags_update st cache_name).has_action = true ∧
    (cache_hoist_flags_update st cache_name).has_cache = true ∧
    (cache_hoist_flags_update st cache_name).export_actions =
      st.export_actions ++ [cache_name] ∧
    (∃ text,
      module_leading_comments (cache_hoist_flags_update st cache_name).has_action
        start_pos hash_salt file_name
        (cache_hoist_flags_update st cache_name).export_actions false
        exported_names = [⟨start_pos, CKind.block, text⟩]) ∧
    generate_action_id hash_salt file_name cache_name ∈
      (moduleActionsMap hash_salt file_name
        (cache_hoist_flags_update st cache_name).export_actions false
        exported_names).map Prod.fst := by
  refine ⟨rfl, rfl, rfl, ⟨_, rfl⟩, ?_⟩
  rw [show moduleActionsMap hash_salt file_name
      (cache_hoist_flags_update st cache_name).export_actions false exported_names =
    (moduleActionsPairs hash_salt file_name
      (cache_hoist_flags_update st cache_name).export_actions false
      exported_names).foldl (fun acc q => btreeInsert q.1 q.2 acc) [] from rfl]
  rw [mem_keys_foldl_btreeInsert]
  right
  simp only [moduleActionsPairs, List.map_map, List.mem_map, Function.comp]
  refine ⟨cache_name, ?_, rfl⟩
  simp [catalogueNames, cache_hoist_flags_update]

/-! ## Must-be-async diagnostics -/

/-- C4 (amended): a function declaration or function expression classified
as an action or cache function and not declared async always yields the
must-be-async diagnostic, and an async one never does; for arrow
expressions the diagnostic is additionally suppressed whenever the module
is an action file or a cache file. -/
theorem c4_async_diags (is_action_fn : Bool) (cache_type : Option String)
    (is_async in_action_file : Bool) (in_cache_file : Option String)
    (hclass : is_action_fn = true ∨ cache_type.isSome = true) :
    (is_async = true →
      fn_decl_async_diags is_action_fn cache_type is_async = [] ∧
      fn_expr_async_diags is_action_fn cache_type is_async = [] ∧
      arrow_async_diags is_action_fn cache_type is_async in_action_file in_cache_file
        = []) ∧
    (is_async = false →
      fn_decl_async_diags is_action_fn cache_type is_async ≠ [] ∧
      fn_expr_async_diags is_action_fn cache_type is_async ≠ [] ∧
      (arrow_async_diags is_action_fn cache_type is_async in_action_file in_cache_file
          ≠ [] ↔
        in_action_file = false ∧ in_cache_file = none)) := by
  cases is_async <;> cases is_action_fn <;> cases in_action_file <;>
    cases cache_type <;> cases in_cache_file <;>
    simp_all [fn_decl_async_diags, fn_expr_async_diags, arrow_async_diags]

/-- Witness for the must-be-async theorem at a concrete classified
non-async function. -/
theorem c4_async_diags_witness :
    ((true : Bool) = true ∨ (none : Option String).isSome = true) ∧
    (((false : Bool) = true →
      fn_decl_async_diags true none false = [] ∧
      fn_expr_async_diags true none false = [] ∧
      arrow_async_diags true none false false none = []) ∧
    ((false : Bool) = false →
      fn_decl_async_diags true none false ≠ [] ∧
      fn_expr_async_diags true none false ≠ [] ∧
      (arrow_async_diags true none false false none ≠ [] ↔
        (false : Bool) = false ∧ (none : Option String) = none))) :=
  ⟨Or.inl rfl, c4_async_diags true none false false none (Or.inl rfl)⟩

/-- Counterexample to C4 as stated: an arrow expression classified as an
action function through the export rule of an action file and not declared
async receives no must-be-async diagnostic. -/
theorem c4_arrow_diag_missing_cex :
    (get_body_info ⟨true, true, true, none, true⟩ none).1 = true ∧
    arrow_async_diags (get_body_info ⟨true, true, true, none, true⟩ none).1
      (get_body_info ⟨true, true, true, none, true⟩ none).2.1 false true none = [] := by
  decide

/-! ## Module-level directive typo (C6) -/

/-- C6 (code evidence): on the module `"use servers"; <other stmt>` the
module scanner emits no diagnostic at all — the bare-literal arm only
tests similarity against `"use cache"`, and `"use servers"` is two
characters longer than it — while the literal is kept, `hasAction` stays
unset, and no catalogue comment is attached. -/
theorem c6_use_servers_scan :
    (remove_server_directive_index_in_module true
      [.strStmt ("use servers"), .otherItem 0]).diags = [] ∧
    (remove_server_directive_index_in_module true
      [.strStmt ("use servers"), .otherItem 0]).kept =
      [.strStmt ("use servers"), .otherItem 0] ∧
    (remove_server_directive_index_in_module true
      [.strStmt ("use servers"), .otherItem 0]).has_action = false ∧
    module_leading_comments
      (remove_server_directive_index_in_module true
        [.strStmt ("use servers"), .otherItem 0]).has_action 0 ("") ("/a.js") []
      (remove_server_directive_index_in_module true
        [.strStmt ("use servers"), .otherItem 0]).in_action_file [] = [] := by
  decide

/-! ## Module-item emission ordering (C7) -/

theorem foldl_emitStep_false {α : Type} (gs : List (ItemGroup α)) :
    ∀ st : EmitSt α, (gs.foldl (emitStep false) st).out = st.out := by
  induction gs with
  | nil => intro st; rfl
  | cons g gs ih =>
    intro st
    rw [List.foldl_cons, ih]
    rfl

theorem foldl_emitStep_true {α : Type} (gs : List (ItemGroup α)) :
    ∀ out : List α,
      (gs.foldl (emitStep true) ⟨out, [], [], []⟩).out =
        out ++ gs.flatMap (fun g => g.hoisted ++ [g.rewritten] ++ g.annots ++ g.extra) := by
  induction gs with
  | nil => intro out; simp
  | cons g gs ih =>
    intro out
    rw [List.foldl_cons]
    have hstep : emitStep true (⟨out, [], [], []⟩ : EmitSt α) g =
        ⟨out ++ g.hoisted ++ [g.rewritten] ++ g.annots ++ g.extra, [], [], []⟩ := by
      simp [emitStep]
    rw [hstep, ih]
    simp [List.flatMap_cons]

/-- C7 (amended): each module item contributes, in order, its queued
`hoistedExtraItems`, then the rewritten item itself, then the queued
`annotations`, then the queued `extraItems` — but only when compiling the
server layer or a non-action file; on the client layer of an action file
the whole per-item group, queues included, is omitted from the output. -/
theorem c7_module_items_emission {α : Type} (is_react_server_layer in_action_file : Bool)
    (gs : List (ItemGroup α)) :
    visit_module_items_loop is_react_server_layer in_action_file gs =
      if is_react_server_layer || !in_action_file then
        gs.flatMap (fun g => g.hoisted ++ [g.rewritten] ++ g.annots ++ g.extra)
      else [] := by
  unfold visit_module_items_loop
  cases h : (is_react_server_layer || !in_action_file) with
  | false => rw [foldl_emitStep_false]; rfl
  | true => rw [foldl_emitStep_true]; rfl

/-- Counterexample to C7 as stated: on the client layer of an action file a
pending hoisted item is dropped together with the rewritten item, so the
output is empty rather than the claimed queue-only sequence. -/
theorem c7_client_action_cex :
    visit_module_items_loop false true [(⟨0, [7], [], []⟩ : ItemGroup Nat)] = [] ∧
    visit_module_items_loop false true [(⟨0, [7], [], []⟩ : ItemGroup Nat)] ≠ [7] := by
  constructor
  · rfl
  · intro h
    exact absurd h (by decide)

/-! ## `ClosureReplacer` with an empty capture vector is the identity -/

theorem crIndex_nil (e : Expr) : crIndex [] e = none := by
  simp only [crIndex]
  cases nameTryFrom e <;> simp [List.findIdx?]

theorem crPost_nil (pctxt : Nat) (e : Expr) : crPost [] pctxt e = e := by
  simp only [crPost, crIndex_nil]

mutual

theorem replaceExpr_nil (pctxt : Nat) : (e : Expr) → replaceExpr [] pctxt e = e
  | .identE i => by simp only [replaceExpr]; exact crPost_nil _ _
  | .strLit s => by simp only [replaceExpr]; exact crPost_nil _ _
  | .nullLit => by simp only [replaceExpr]; exact crPost_nil _ _
  | .member obj prop => by
      simp only [replaceExpr, replaceExpr_nil pctxt obj]; exact crPost_nil _ _
  | .optMember obj prop opt => by
      simp only [replaceExpr, replaceExpr_nil pctxt obj]; exact crPost_nil _ _
  | .call c args => by
      simp only [replaceExpr, replaceExpr_nil pctxt c, replaceExprs_nil pctxt args]
      exact crPost_nil _ _
  | .array es => by
      simp only [replaceExpr, replaceExprs_nil pctxt es]; exact crPost_nil _ _
  | .awaitE e => by
      simp only [replaceExpr, replaceExpr_nil pctxt e]; exact crPost_nil _ _
  | .fnExprE i f => by
      simp only [replaceExpr, replaceFunc_nil pctxt f]; exact crPost_nil _ _
  | .otherE t => by simp only [replaceExpr]; exact crPost_nil _ _

theorem replaceExprs_nil (pctxt : Nat) : (es : List Expr) → replaceExprs [] pctxt es = es
  | [] => by simp only [replaceExprs]
  | e :: es => by
      simp only [replaceExprs, replaceExpr_nil pctxt e, replaceExprs_nil pctxt es]

theorem replaceOptExpr_nil (pctxt : Nat) :
    (oe : Option Expr) → replaceOptExpr [] pctxt oe = oe
  | none => by simp only [replaceOptExpr]
  | some e => by simp only [replaceOptExpr, replaceExpr_nil pctxt e]

theorem replaceFunc_nil (pctxt : Nat) : (f : Func) → replaceFunc [] pctxt f = f
  | .mk params body a g => by
      simp only [replaceFunc, replaceOptStmts_nil pctxt body]

theorem replaceOptStmts_nil (pctxt : Nat) :
    (ob : Option (List Stmt)) → replaceOptStmts [] pctxt ob = ob
  | none => by simp only [replaceOptStmts]
  | some ss => by simp only [replaceOptStmts, replaceStmts_nil pctxt ss]

theorem replaceStmts_nil (pctxt : Nat) : (ss : List Stmt) → replaceStmts [] pctxt ss = ss
  | [] => by simp only [replaceStmts]
  | s :: ss => by
      simp only [replaceStmts, replaceStmt_nil pctxt s, replaceStmts_nil pctxt ss]

theorem replaceStmt_nil (pctxt : Nat) : (s : Stmt) → replaceStmt [] pctxt s = s
  | .varDecl decls => by simp only [replaceStmt, replaceDecls_nil pctxt decls]
  | .ret arg => by simp only [replaceStmt, replaceOptExpr_nil pctxt arg]
  | .exprStmt e => by simp only [replaceStmt, replaceExpr_nil pctxt e]
  | .otherS t => by simp only [replaceStmt]

theorem replaceDecls_nil (pctxt : Nat) :
    (ds : List (Pat × Option Expr)) → replaceDecls [] pctxt ds = ds
  | [] => by simp only [replaceDecls]
  | (p, init) :: rest => by
      simp only [replaceDecls, replaceOptExpr_nil pctxt init, replaceDecls_nil pctxt rest]

end

/-! ## Hoisting (C3, C10) -/

/-- C3 (amended): an arrow-expression action hoist is always async while a
function action hoist keeps the original asyncness; both hoisted items
carry the fresh `$$RSC_SERVER_ACTION_<n>` name; with no captures the proxy
is the bare `registerServerReference(name, id, null)` call, and with
captures the proxy is that call wrapped in
`.bind(null, encryptActionBoundArgs(id, [caps…]))` over the original
qualified-name expressions, the hoisted parameter list starts with
`$$ACTION_CLOSURE_BOUND`, and the first hoisted body statement is the
decrypt-destructure declaration carrying the same action-id literal. -/
theorem c3_hoist_spec (hash_salt file_name : String) (pctxt reference_index : Nat)
    (caps : List Name) (arrow : Arrow) (function : Func) :
    (maybe_hoist_and_create_proxy_for_server_action_arrow_expr hash_salt file_name pctxt
      reference_index caps arrow).extra_item.func.is_async = true ∧
    (maybe_hoist_and_create_proxy_for_server_action_function hash_salt file_name pctxt
      reference_index caps function).extra_item.func.is_async = function.is_async ∧
    (maybe_hoist_and_create_proxy_for_server_action_arrow_expr hash_salt file_name pctxt
      reference_index caps arrow).extra_item.ident =
      ⟨"$$RSC_SERVER_ACTION_" ++ toString reference_index, pctxt⟩ ∧
    (maybe_hoist_and_create_proxy_for_server_action_function hash_salt file_name pctxt
      reference_index caps function).extra_item.ident =
      ⟨"$$RSC_SERVER_ACTION_" ++ toString reference_index, pctxt⟩ ∧
    (caps = [] →
      (maybe_hoist_and_create_proxy_for_server_action_arrow_expr hash_salt file_name pctxt
        reference_index caps arrow).proxy =
        .call (.identE (quoteIdent ("registerServerReference")))
          [.identE ⟨"$$RSC_SERVER_ACTION_" ++ toString reference_index, pctxt⟩,
           .strLit (generate_action_id hash_salt file_name
             ("$$RSC_SERVER_ACTION_" ++ toString reference_index)),
           .nullLit] ∧
      (maybe_hoist_and_create_proxy_for_server_action_function hash_salt file_name pctxt
        reference_index caps function).proxy =
        .call (.identE (quoteIdent ("registerServerReference")))
          [.identE ⟨"$$RSC_SERVER_ACTION_" ++ toString reference_index, pctxt⟩,
           .strLit (generate_action_id hash_salt file_name
             ("$$RSC_SERVER_ACTION_" ++ toString reference_index)),
           .nullLit]) ∧
    (caps ≠ [] →
      (maybe_hoist_and_create_proxy_for_server_action_arrow_expr hash_salt file_name pctxt
        reference_index caps arrow).proxy =
        .call
          (.member
            (.call (.identE (quoteIdent ("registerServerReference")))
              [.identE ⟨"$$RSC_SERVER_ACTION_" ++ toString reference_index, pctxt⟩,
               .strLit (generate_action_id hash_salt file_name
                 ("$$RSC_SERVER_ACTION_" ++ toString reference_index)),
               .nullLit])
            ("bind"))
          [.nullLit,
           .call (.identE (quoteIdent ("encryptActionBoundArgs")))
             [.strLit (generate_action_id hash_salt file_name
                ("$$RSC_SERVER_ACTION_" ++ toString reference_index)),
              .array (caps.map nameToExpr)]] ∧
      (maybe_hoist_and_create_proxy_for_server_action_function hash_salt file_name pctxt
        reference_index caps function).proxy =
        .call
          (.member
            (.call (.identE (quoteIdent ("registerServerReference")))
              [.identE ⟨"$$RSC_SERVER_ACTION_" ++ toString reference_index, pctxt⟩,
               .strLit (generate_action_id hash_salt file_name
                 ("$$RSC_SERVER_ACTION_" ++ toString reference_index)),
               .nullLit])
            ("bind"))
          [.nullLit,
           .call (.identE (quoteIdent ("encryptActionBoundArgs")))
             [.strLit (generate_action_id hash_salt file_name
                ("$$RSC_SERVER_ACTION_" ++ toString reference_index)),
              .array (caps.map nameToExpr)]] ∧
      (maybe_hoist_and_create_proxy_for_server_action_arrow_expr hash_salt file_name pctxt
        reference_index caps arrow).extra_item.func.params.head? =
        some closureBoundPat ∧
      (maybe_hoist_and_create_proxy_for_server_action_function hash_salt file_name pctxt
        reference_index caps function).extra_item.func.params.head? =
        some closureBoundPat ∧
      ((maybe_hoist_and_create_proxy_for_server_action_arrow_expr hash_salt file_name pctxt
        reference_index caps arrow).extra_item.func.body.getD []).head? =
        some (decryptionDecl (actionArgPats pctxt caps.length)
          (generate_action_id hash_salt file_name
            ("$$RSC_SERVER_ACTION_" ++ toString reference_index))) ∧
      ((maybe_hoist_and_create_proxy_for_server_action_function hash_salt file_name pctxt
        reference_index caps function).extra_item.func.body.getD []).head? =
        some (decryptionDecl (actionArgPats pctxt caps.length)
          (generate_action_id hash_salt file_name
            ("$$RSC_SERVER_ACTION_" ++ toString reference_index)))) := by
  refine ⟨rfl, rfl, rfl, rfl, ?_, ?_⟩
  · rintro rfl
    constructor
    · simp [maybe_hoist_and_create_proxy_for_server_action_arrow_expr,
        annotate_ident_as_server_reference]
    · simp [maybe_hoist_and_create_proxy_for_server_action_function,
        annotate_ident_as_server_reference]
  · intro hne
    obtain ⟨c, cs, rfl⟩ : ∃ c cs, caps = c :: cs := by
      cases caps with
      | nil => exact absurd rfl hne
      | cons c cs => exact ⟨c, cs, rfl⟩
    refine ⟨?_, ?_, ?_, ?_, ?_, ?_⟩
    · simp [maybe_hoist_and_create_proxy_for_server_action_arrow_expr,
        annotate_ident_as_server_reference]
    · simp [maybe_hoist_and_create_proxy_for_server_action_function,
        annotate_ident_as_server_reference]
    · simp [maybe_hoist_and_create_proxy_for_server_action_arrow_expr, Func.params]
    · simp [maybe_hoist_and_create_proxy_for_server_action_function, Func.params]
    · rcases arrow with ⟨aparams, abody, aasync⟩
      cases abody <;>
        simp [maybe_hoist_and_create_proxy_for_server_action_arrow_expr, Func.body]
    · simp [maybe_hoist_and_create_proxy_for_server_action_function, Func.body]

/-- Witness for the hoist theorem: a nonempty concrete capture vector
exercises the closure-bound branch. -/
theorem c3_hoist_spec_witness :
    capW ≠ [] ∧
    (maybe_hoist_and_create_proxy_for_server_action_arrow_expr ("") ("/a.js") 1 0 capW
      arrowW).extra_item.func.params.head? = some closureBoundPat :=
  ⟨by decide,
   ((c3_hoist_spec ("") ("/a.js") 1 0 capW arrowW funcW).2.2.2.2.2 (by decide)).2.2.1⟩

/-- Counterexample to C3 as stated: hoisting a non-async function
declaration (possible after the must-be-async diagnostic) produces a
non-async hoisted definition, because the function hoist keeps the
original flags. -/
theorem c3_hoist_async_cex :
    (maybe_hoist_and_create_proxy_for_server_action_function ("") ("/a.js") 1 0 []
      funcNA).extra_item.func.is_async = false := rfl

/-- C10: the cache branch of `visit_mut_fn_decl` always hoists with an
empty capture vector, so for any collected `child_names` the hoisted
`$$cache__` wrapper keeps exactly the original parameters and body (no
`$$ACTION_CLOSURE_BOUND`, no decrypt statement) and the replacement
declaration binds the original name to the bare
`registerServerReference` proxy, never wrapped in `.bind`. -/
theorem c10_fn_decl_cache_hoist (hash_salt file_name : String)
    (pctxt reference_index : Nat) (child_names : List Name) (ident : JsId)
    (cache_type : String) (function : Func) :
    (visit_fn_decl_cache_branch hash_salt file_name pctxt reference_index child_names
        ident cache_type function).hoisted_item =
      ⟨⟨"$$RSC_SERVER_CACHE_" ++ toString reference_index, pctxt⟩,
        wrap_cache_expr
          (.fnExprE (some ident)
            (.mk function.params function.body function.is_async function.is_generator))
          cache_type
          (generate_action_id hash_salt file_name
            ("$$RSC_SERVER_CACHE_" ++ toString reference_index))⟩ ∧
    (visit_fn_decl_cache_branch hash_salt file_name pctxt reference_index child_names
        ident cache_type function).rewrite_fn_decl_to_proxy_decl =
      ⟨ident,
        .call (.identE (quoteIdent ("registerServerReference")))
          [.identE ⟨"$$RSC_SERVER_CACHE_" ++ toString reference_index, pctxt⟩,
           .strLit (generate_action_id hash_salt file_name
             ("$$RSC_SERVER_CACHE_" ++ toString reference_index)),
           .nullLit]⟩ := by
  constructor
  · simp only [visit_fn_decl_cache_branch,
      maybe_hoist_and_create_proxy_for_cache_function, List.isEmpty_nil, if_true,
      List.nil_append, replaceOptStmts_nil]
  · simp only [visit_fn_decl_cache_branch,
      maybe_hoist_and_create_proxy_for_cache_function, List.map_nil,
      annotate_ident_as_server_reference, List.isEmpty_nil, if_true]

/-! ## Capture retention (C8) -/

theorem any_beq_base (d : List JsId) (b : JsId) :
    (d.any fun i => i == b) = true ↔ b ∈ d := by
  simp [List.any_eq_true]

theorem mem_retainStep (cn : List Name) (d : List JsId) (acc : List Name)
    (x n : Name) :
    n ∈ retainStep cn d acc x ↔
      n ∈ acc ∨ (n = x ∧ hasCoveringName cn x = false ∧ x.base ∈ d) := by
  simp only [retainStep]
  split
  · next hcond =>
    simp only [Bool.and_eq_true, Bool.not_eq_true'] at hcond
    obtain ⟨⟨hcov, hany⟩, hcont⟩ := hcond
    have hbase : x.base ∈ d := (any_beq_base d x.base).mp hany
    simp only [List.mem_append, List.mem_singleton]
    constructor
    · rintro (h | rfl)
      · exact Or.inl h
      · exact Or.inr ⟨rfl, hcov, hbase⟩
    · rintro (h | ⟨rfl, _, _⟩)
      · exact Or.inl h
      · exact Or.inr rfl
  · next hcond =>
    rw [Bool.not_eq_true] at hcond
    constructor
    · exact Or.inl
    · rintro (h | ⟨rfl, h1, h2⟩)
      · exact h
      · rw [h1, (any_beq_base d n.base).mpr h2] at hcond
        simp only [Bool.not_false, Bool.true_and, Bool.not_eq_false'] at hcond
        exact List.elem_iff.mp hcond

theorem mem_foldl_retainStep (cn : List Name) (d : List JsId) :
    ∀ (l acc : List Name) (n : Name),
      n ∈ l.foldl (retainStep cn d) acc ↔
        n ∈ acc ∨ (n ∈ l ∧ hasCoveringName cn n = false ∧ n.base ∈ d) := by
  intro l
  induction l with
  | nil => simp
  | cons x l ih =>
    intro acc n
    rw [List.foldl_cons, ih, mem_retainStep]
    simp only [List.mem_cons]
    constructor
    · rintro ((h | ⟨rfl, hk⟩) | ⟨hl, hk⟩)
      · exact Or.inl h
      · exact Or.inr ⟨Or.inl rfl, hk⟩
      · exact Or.inr ⟨Or.inr hl, hk⟩
    · rintro (h | ⟨rfl | hl, hk⟩)
      · exact Or.inl (Or.inl h)
      · exact Or.inl (Or.inr ⟨rfl, hk⟩)
      · exact Or.inr ⟨hl, hk⟩

theorem retain_mem (cn : List Name) (d : List JsId) (n : Name) :
    n ∈ retain_names_from_declared_idents cn d ↔
      n ∈ cn ∧ hasCoveringName cn n = false ∧ n.base ∈ d := by
  rw [retain_names_from_declared_idents, mem_foldl_retainStep]
  simp

theorem nodup_foldl_retainStep (cn : List Name) (d : List JsId) :
    ∀ (l acc : List Name), acc.Nodup → (l.foldl (retainStep cn d) acc).Nodup := by
  intro l
  induction l with
  | nil => intro acc h; exact h
  | cons x l ih =>
    intro acc h
    rw [List.foldl_cons]
    apply ih
    simp only [retainStep]
    split
    · next hcond =>
      rw [Bool.and_eq_true] at hcond
      have h5 : List.elem x acc = false := by
        have h6 := hcond.2
        rw [Bool.not_eq_true'] at h6
        exact h6
      have hx2 : x ∉ acc := by
        intro hmem
        rw [List.elem_iff.mpr hmem] at h5
        simp at h5
      simp [List.nodup_append, h, hx2]
    · exact h

theorem foldl_retainStep_sublist (cn : List Name) (d : List JsId) :
    ∀ (l acc : List Name), ∃ s : List Name,
      l.foldl (retainStep cn d) acc = acc ++ s ∧ s.Sublist l := by
  intro l
  induction l with
  | nil => intro acc; exact ⟨[], by simp, List.nil_sublist _⟩
  | cons x l ih =>
    intro acc
    rw [List.foldl_cons]
    simp only [retainStep]
    split
    · obtain ⟨s, hs, hsub⟩ := ih (acc ++ [x])
      exact ⟨x :: s, by simpa using hs, List.Sublist.cons₂ x hsub⟩
    · obtain ⟨s, hs, hsub⟩ := ih acc
      exact ⟨s, hs, List.Sublist.cons x hsub⟩

theorem partsPrefOf_length : ∀ xs ys : List NamePart,
    partsPrefOf xs ys = true → xs.length ≤ ys.length := by
  intro xs
  induction xs with
  | nil => intro ys _; simp
  | cons x xs ih =>
    intro ys h
    cases ys with
    | nil => simp [partsPrefOf] at h
    | cons y ys =>
      simp only [partsPrefOf, Bool.and_eq_true] at h
      simpa using ih ys h.2

/-- C8: the retained capture vector takes only candidates whose base
identifier is among the declared identifiers of the enclosing (non-module)
scopes — hence, given that the declared slice contains no module-scope
binding and no parameter of the hoisted function, no capture is either;
the result has no duplicates; a candidate strictly extended from another
candidate with the same base never survives while the minimal prefix
does (when its base is declared and nothing covers it); and survivors
appear in insertion order as a sublist of the candidates. -/
theorem c8_retain_names (cn : List Name) (d : List JsId)
    (module_scope params : List JsId)
    (hmod : ∀ i ∈ d, i ∉ module_scope) (hpar : ∀ i ∈ d, i ∉ params) :
    (∀ n ∈ retain_names_from_declared_idents cn d,
      n.base ∈ d ∧ n.base ∉ module_scope ∧ n.base ∉ params) ∧
    (retain_names_from_declared_idents cn d).Nodup ∧
    (∀ n m : Name, n ∈ cn → m ∈ cn → m.base = n.base →
      partsPrefOf n.parts m.parts = true → n.parts ≠ m.parts →
      m ∉ retain_names_from_declared_idents cn d ∧
      (n.base ∈ d → hasCoveringName cn n = false →
        n ∈ retain_names_from_declared_idents cn d)) ∧
    (retain_names_from_declared_idents cn d).Sublist cn := by
  refine ⟨?_, ?_, ?_, ?_⟩
  · intro n hn
    have h := (retain_mem cn d n).mp hn
    exact ⟨h.2.2, hmod _ h.2.2, hpar _ h.2.2⟩
  · exact nodup_foldl_retainStep cn d cn [] List.nodup_nil
  · intro n m hn hm hbase hpref hne
    constructor
    · intro hmem
      have h := (retain_mem cn d m).mp hmem
      have hcov : hasCoveringName cn m = true := by
        rw [hasCoveringName, List.any_eq_true]
        refine ⟨n, hn, ?_⟩
        have hnm : m ≠ n := by
          intro h2
          rw [h2] at hne
          exact hne rfl
        simp [hnm, hbase, partsPrefOf_length _ _ hpref, hpref]
      rw [h.2.1] at hcov
      cases hcov
    · intro hd hcov
      exact (retain_mem cn d n).mpr ⟨hn, hcov, hd⟩
  · obtain ⟨s, hs, hsub⟩ := foldl_retainStep_sublist cn d cn []
    rw [retain_names_from_declared_idents, hs]
    simpa using hsub

/-- Witness for the retention theorem at a concrete candidate list
containing `a.b` and `a.b.c`. -/
theorem c8_retain_names_witness :
    ((∀ i ∈ dW, i ∉ modW) ∧ ∀ i ∈ dW, i ∉ parW) ∧
    (retain_names_from_declared_idents cnW dW).Sublist cnW :=
  ⟨⟨by decide, by decide⟩,
   (c8_retain_names cnW dW modW parW (by decide) (by decide)).2.2.2⟩

end SA
